import Mathlib

/-!
Verification development for the SemanticSimilarityAnalyzer repository.

The definitions below are a shallow embedding of the TypeScript source:
`src/server/routes.ts` (scoring, segmentation, keyword coverage, section
improvements, gap analysis) and `src/client/src/lib/analysis.ts`
(keyword parsing, cumulative impact).  Strings are modelled as `List Char`,
JavaScript numbers as `ℚ` (exact arithmetic) except where a square root is
mathematically required, in which case the value lives in `ℝ`.
`Math.round x` is modelled as `⌊x + 1/2⌋`, which is its exact semantics on
finite doubles.  Division of a finite float by zero produces a non-finite
IEEE value (`NaN` here, since every such division in this code base has a
zero numerator as well); functions whose JS counterpart can produce such a
non-finite value return an `Option`, with `none` marking the non-finite
outcome.
-/

/-- ASCII whitespace recognised by JavaScript `\s` and `String.prototype.trim`
(the Unicode space classes are not needed by any concrete text below). -/
def jsIsSpace (c : Char) : Bool :=
  c = ' ' ∨ c = '\t' ∨ c = '\n' ∨ c = '\r' ∨ c = '\x0b' ∨ c = '\x0c'

/-- Characters matched by an (unflagged) JavaScript `.`: anything except a
line terminator. -/
def jsDot (c : Char) : Bool :=
  ¬(c = '\n' ∨ c = '\r' ∨ c = ' ' ∨ c = ' ')

/-- JavaScript `String.prototype.trim` on a character list. -/
def jsTrim (l : List Char) : List Char :=
  ((l.dropWhile jsIsSpace).reverse.dropWhile jsIsSpace).reverse

/-- JavaScript `Math.round` (round half towards positive infinity). -/
def jsRoundQ (q : ℚ) : ℤ := ⌊q + 1 / 2⌋

/-- `ScorePrediction` from `src/client/src/lib/analysis.ts`. -/
structure ScorePrediction where
  keyword : List Char
  currentMentions : ℕ
  suggestedMentions : ℕ
  currentScore : ℚ
  predictedScore : ℚ
  impact : ℚ
deriving DecidableEq, Inhabited

/-- `calculateCumulativeImpact` from `src/client/src/lib/analysis.ts`
(lines 222-234): starting from the first prediction's `currentScore`, each
prediction's impact is added scaled by a diminishing factor that starts at 1
and is multiplied by 0.8 after every prediction; the result is rounded to one
decimal and clamped above by 100.  The empty list returns 0. -/
def calculateCumulativeImpact (predictions : List ScorePrediction) : ℚ :=
  if predictions = [] then 0
  else
    let state := predictions.foldl
      (fun acc pred => (acc.1 + pred.impact * acc.2, acc.2 * (8 / 10)))
      ((predictions.headI.currentScore : ℚ), (1 : ℚ))
    min 100 ((jsRoundQ (state.1 * 10) : ℚ) / 10)

lemma cumulativeFold_snd_nonneg (ps : List ScorePrediction) (x f : ℚ) (hf : 0 ≤ f) :
    0 ≤ (ps.foldl (fun acc pred => (acc.1 + pred.impact * acc.2, acc.2 * (8 / 10))) (x, f)).2 := by
  induction ps generalizing x f with
  | nil => simpa using hf
  | cons p t ih =>
    simp only [List.foldl_cons]
    exact ih _ _ (by positivity)

lemma jsRoundQ_mono {a b : ℚ} (h : a ≤ b) : jsRoundQ a ≤ jsRoundQ b := by
  unfold jsRoundQ
  exact Int.floor_le_floor (by linarith)

/-- C8 counterexample: appending a prediction with non-negative impact (here 0)
but negative `currentScore` to the empty list drops the cumulative impact from
0 to -10, so the monotonicity clause of the claim fails as stated. -/
theorem calculateCumulativeImpact_append_can_decrease :
    calculateCumulativeImpact [] = 0 ∧
    (0 : ℚ) ≤ (⟨[], 0, 0, -10, 0, 0⟩ : ScorePrediction).impact ∧
    calculateCumulativeImpact ([] ++ [⟨[], 0, 0, -10, 0, 0⟩]) <
      calculateCumulativeImpact [] := by
  refine ⟨by decide, by decide, ?_⟩
  simp only [List.nil_append]
  unfold calculateCumulativeImpact
  rw [if_neg (by decide), if_pos rfl]
  simp only [List.foldl_cons, List.foldl_nil, List.headI]
  norm_num [jsRoundQ]

/-- C8 (amended): `calculateCumulativeImpact` returns 0 on the empty list, is
always at most 100, and appending a prediction with non-negative impact to a
non-empty prediction list never decreases the result.  (Appending to the empty
list can decrease it when the appended prediction's `currentScore` is
negative, because the base score jumps from the constant 0 to that
`currentScore`.) -/
theorem calculateCumulativeImpact_spec :
    calculateCumulativeImpact [] = 0 ∧
    (∀ ps : List ScorePrediction, calculateCumulativeImpact ps ≤ 100) ∧
    (∀ (ps : List ScorePrediction) (p : ScorePrediction), ps ≠ [] → 0 ≤ p.impact →
      calculateCumulativeImpact ps ≤ calculateCumulativeImpact (ps ++ [p])) := by
  refine ⟨by decide, ?_, ?_⟩
  · intro ps
    unfold calculateCumulativeImpact
    split
    · norm_num
    · exact min_le_left _ _
  · intro ps p hne hp
    unfold calculateCumulativeImpact
    rw [if_neg hne, if_neg (by simp)]
    have hhead : (ps ++ [p]).headI = ps.headI := by
      cases ps with
      | nil => exact absurd rfl hne
      | cons a t => rfl
    rw [hhead, List.foldl_append]
    set step := fun (acc : ℚ × ℚ) (pred : ScorePrediction) =>
      (acc.1 + pred.impact * acc.2, acc.2 * (8 / 10)) with hstep
    set acc := ps.foldl step ((ps.headI.currentScore : ℚ), (1 : ℚ)) with hacc
    have hsnd : 0 ≤ acc.2 := by
      rw [hacc, hstep]
      exact cumulativeFold_snd_nonneg ps _ _ (by norm_num)
    have hfst : acc.1 ≤ (List.foldl step acc [p]).1 := by
      simp only [List.foldl_cons, List.foldl_nil, hstep]
      nlinarith
    have hround : (jsRoundQ (acc.1 * 10) : ℚ) / 10 ≤
        (jsRoundQ ((List.foldl step acc [p]).1 * 10) : ℚ) / 10 := by
      have := jsRoundQ_mono (a := acc.1 * 10) (b := (List.foldl step acc [p]).1 * 10)
        (by linarith)
      have hc : (jsRoundQ (acc.1 * 10) : ℚ) ≤ (jsRoundQ ((List.foldl step acc [p]).1 * 10) : ℚ) :=
        Int.cast_le.mpr this
      linarith
    exact min_le_min le_rfl hround

/-- C8 witness: the amended monotonicity applied to a concrete non-empty list. -/
theorem calculateCumulativeImpact_spec_witness :
    ([⟨[], 0, 0, 50, 0, 2⟩] : List ScorePrediction) ≠ [] ∧
    (0 : ℚ) ≤ (⟨[], 0, 0, 60, 0, 3⟩ : ScorePrediction).impact ∧
    calculateCumulativeImpact [⟨[], 0, 0, 50, 0, 2⟩] ≤
      calculateCumulativeImpact ([⟨[], 0, 0, 50, 0, 2⟩] ++ [⟨[], 0, 0, 60, 0, 3⟩]) :=
  ⟨by decide, by decide,
    calculateCumulativeImpact_spec.2.2 _ _ (by decide) (by decide)⟩

/-- The dot-product loop shared by `cosineSimilarity` in
`src/server/routes.ts` (lines 607-619): `Σ a[i] * b[i]`.  For equal-length
vectors the same loop also yields `normA` (as `dotProd a a`) and `normB`
(as `dotProd b b`). -/
def dotProd (a b : List ℚ) : ℚ := (List.zipWith (· * ·) a b).sum

lemma dotProd_cons (x y : ℚ) (a b : List ℚ) :
    dotProd (x :: a) (y :: b) = x * y + dotProd a b := by
  simp [dotProd]

lemma dotProd_self_nonneg (a : List ℚ) : 0 ≤ dotProd a a := by
  induction a with
  | nil => simp [dotProd]
  | cons x t ih =>
    rw [dotProd_cons]
    nlinarith [mul_self_nonneg x]

/-- Cauchy-Schwarz for the embedded dot product, proved by induction. -/
lemma dotProd_sq_le (a b : List ℚ) : dotProd a b ^ 2 ≤ dotProd a a * dotProd b b := by
  induction a generalizing b with
  | nil => simp [dotProd]
  | cons x as ih =>
    cases b with
    | nil =>
      simp only [dotProd, List.zipWith_nil_right, List.sum_nil]
      nlinarith [dotProd_self_nonneg (x :: as)]
    | cons y bs =>
      have hA := dotProd_self_nonneg as
      have hB := dotProd_self_nonneg bs
      have hIH := ih bs
      rw [dotProd_cons, dotProd_cons, dotProd_cons]
      set d := dotProd as bs with hd
      set A := dotProd as as with hA'
      set B := dotProd bs bs with hB'
      rcases eq_or_lt_of_le hB with hB0 | hBpos
      · have hdz : d = 0 := by nlinarith
        rw [hdz, ← hB0]
        nlinarith [mul_nonneg hA (mul_self_nonneg y)]
      · nlinarith [sq_nonneg (x * B - d * y),
          mul_nonneg (add_nonneg (mul_self_nonneg y) hB) (sub_nonneg.mpr hIH)]

/-- `cosineSimilarity` from `src/server/routes.ts` (lines 607-619):
`dot / (sqrt normA * sqrt normB)`.  Vector entries are exact rationals; the
square roots force the result into `ℝ`. -/
noncomputable def cosineSimilarity (a b : List ℚ) : ℝ :=
  (dotProd a b : ℝ) / (Real.sqrt (dotProd a a) * Real.sqrt (dotProd b b))

/-- The clamp operation named by the specification (`clamp(x, lo, hi)`).
The source contains no clamp; this definition exists so the score formula
claimed by the spec can be compared with the code's formula. -/
def specClamp (x lo hi : ℝ) : ℝ := max lo (min hi x)

/-- JavaScript `Math.round` on a real argument. -/
noncomputable def jsRoundR (x : ℝ) : ℤ := ⌊x + 1 / 2⌋

/-- The per-chunk score assigned by `analyzeChunks` in `src/server/routes.ts`
(line 600): `Math.round(cosineSimilarity(centroid, embedding) * 1000) / 10`. -/
noncomputable def sectionScore (centroid embedding : List ℚ) : ℚ :=
  (jsRoundR (cosineSimilarity centroid embedding * 1000) : ℚ) / 10

lemma cosineSimilarity_abs_le (a b : List ℚ)
    (ha : dotProd a a ≠ 0) (hb : dotProd b b ≠ 0) : |cosineSimilarity a b| ≤ 1 := by
  have hA : (0 : ℚ) < dotProd a a := lt_of_le_of_ne (dotProd_self_nonneg a) (Ne.symm ha)
  have hB : (0 : ℚ) < dotProd b b := lt_of_le_of_ne (dotProd_self_nonneg b) (Ne.symm hb)
  have hAR : (0 : ℝ) < ((dotProd a a : ℚ) : ℝ) := by exact_mod_cast hA
  have hBR : (0 : ℝ) < ((dotProd b b : ℚ) : ℝ) := by exact_mod_cast hB
  have hden : (0 : ℝ) < Real.sqrt (dotProd a a) * Real.sqrt (dotProd b b) :=
    mul_pos (Real.sqrt_pos.mpr hAR) (Real.sqrt_pos.mpr hBR)
  rw [cosineSimilarity, abs_div, abs_of_pos hden, div_le_one hden,
    ← Real.sqrt_mul hAR.le]
  rw [Real.le_sqrt (abs_nonneg _) (by positivity)]
  rw [sq_abs]
  exact_mod_cast dotProd_sq_le a b

/-- C1 (amended): the chunk score equals the spec's
`clamp(cos, -1, 1) * 100` rounded to one decimal place (the clamp is vacuous
in exact arithmetic because cosine similarity already lies in `[-1, 1]`),
but the score range is `[-100, 100]`, not `[0, 100]`: a negative cosine
yields a negative section score. -/
theorem sectionScore_clamped_range (a b : List ℚ) (hlen : a.length = b.length)
    (ha : dotProd a a ≠ 0) (hb : dotProd b b ≠ 0) :
    sectionScore a b = (jsRoundR (specClamp (cosineSimilarity a b) (-1) 1 * 1000) : ℚ) / 10 ∧
    -100 ≤ sectionScore a b ∧ sectionScore a b ≤ 100 := by
  have habs := cosineSimilarity_abs_le a b ha hb
  obtain ⟨hlo, hhi⟩ := abs_le.mp habs
  have hclamp : specClamp (cosineSimilarity a b) (-1) 1 = cosineSimilarity a b := by
    rw [specClamp, min_eq_right hhi, max_eq_right hlo]
  refine ⟨by rw [hclamp, sectionScore], ?_, ?_⟩
  · have hfloor : (-1000 : ℤ) ≤ jsRoundR (cosineSimilarity a b * 1000) := by
      rw [jsRoundR]
      refine Int.le_floor.mpr ?_
      push_cast
      linarith
    rw [sectionScore]
    have : ((-1000 : ℤ) : ℚ) ≤ (jsRoundR (cosineSimilarity a b * 1000) : ℚ) :=
      Int.cast_le.mpr hfloor
    push_cast at this
    linarith
  · have hfloor : jsRoundR (cosineSimilarity a b * 1000) ≤ 1000 := by
      rw [jsRoundR]
      rw [← Int.lt_add_one_iff]
      refine Int.floor_lt.mpr ?_
      push_cast
      linarith
    rw [sectionScore]
    have : (jsRoundR (cosineSimilarity a b * 1000) : ℚ) ≤ ((1000 : ℤ) : ℚ) :=
      Int.cast_le.mpr hfloor
    push_cast at this
    linarith

/-- C1 witness: the amended statement applied at the concrete unit vectors
`[1]` and `[1]`. -/
theorem sectionScore_clamped_range_witness :
    dotProd [1] [1] ≠ 0 ∧
    (-100 ≤ sectionScore [1] [1] ∧ sectionScore [1] [1] ≤ 100) :=
  ⟨by norm_num [dotProd],
    (sectionScore_clamped_range [1] [1] rfl (by norm_num [dotProd]) (by norm_num [dotProd])).2⟩

/-- C1 counterexample: at centroid `[1]` and embedding `[-1]` the code's
section score is `-100`, which is outside the claimed `[0, 100]` range. -/
theorem sectionScore_not_nonneg :
    sectionScore [1] [-1] = -100 ∧ sectionScore [1] [-1] < 0 := by
  have h1 : dotProd [(1 : ℚ)] [-1] = -1 := by norm_num [dotProd]
  have h2 : dotProd [(1 : ℚ)] [1] = 1 := by norm_num [dotProd]
  have h3 : dotProd [(-1 : ℚ)] [-1] = 1 := by norm_num [dotProd]
  have hcos : cosineSimilarity [1] [-1] = -1 := by
    rw [cosineSimilarity, h1, h2, h3]
    norm_num [Real.sqrt_one]
  have hval : sectionScore [1] [-1] = -100 := by
    rw [sectionScore, jsRoundR, hcos]
    norm_num
  exact ⟨hval, by rw [hval]; norm_num⟩

/-- The weighted-centroid accumulation from `registerRoutes` in
`src/server/routes.ts` (lines 200-210): starts from a zero vector of the
first embedding's dimension and adds `value * weight` componentwise. -/
def weightedCentroid (entries : List (List ℚ × ℚ)) (dims : ℕ) : List ℚ :=
  entries.foldl (fun acc e => List.zipWith (fun av v => av + v * e.2) acc e.1)
    (List.replicate dims 0)

/-- Centroid normalization from `src/server/routes.ts` (lines 212-214),
with IEEE semantics made explicit: when the magnitude is zero the JS code
divides by zero and every component becomes `NaN`; that non-finite outcome
is modelled as `none`.  The code itself contains no such guard. -/
noncomputable def normalizedCentroidJS (v : List ℚ) : Option (List ℝ) :=
  if dotProd v v = 0 then none
  else some (v.map (fun x => (x : ℝ) / Real.sqrt (dotProd v v)))

/-- `cosineSimilarity` with IEEE semantics made explicit: when either vector
has zero magnitude the JS code computes `0 / 0 = NaN` (the numerator is also
zero because the zero vector annihilates the dot product); the non-finite
outcome is modelled as `none`.  The code itself contains no such guard. -/
noncomputable def cosineSimilarityJS (a b : List ℚ) : Option ℝ :=
  if dotProd a a = 0 ∨ dotProd b b = 0 then none
  else some (cosineSimilarity a b)

/-- The chunk score of `analyzeChunks` (line 600 of `src/server/routes.ts`)
under IEEE semantics: `Math.round(NaN * 1000) / 10` is again `NaN`, so a
non-finite cosine propagates into the chunk score that is serialized into
the user-visible `AnalysisResult`. -/
noncomputable def sectionScoreJS (centroid embedding : List ℚ) : Option ℚ :=
  (cosineSimilarityJS centroid embedding).map
    (fun x => (jsRoundR (x * 1000) : ℚ) / 10)

/-- C2: the code does NOT treat zero-magnitude vectors as a hard error.
A pair of unit-weight keyword embeddings that cancel produces the zero
centroid, whose normalization is non-finite (`NaN` in JS); likewise an
all-zero chunk embedding makes `cosineSimilarity` evaluate `0 / 0 = NaN`,
and that `NaN` flows unchanged into the chunk score of the output.  The
claim (and §7 of the specification) requires a hard failure instead, so
this is a divergence of the code from its specification. -/
theorem degenerateMath_nan_propagates :
    weightedCentroid [([1, 0], 1), ([-1, 0], 1)] 2 = [0, 0] ∧
    normalizedCentroidJS [0, 0] = none ∧
    cosineSimilarityJS [1, 0] [0, 0] = none ∧
    sectionScoreJS [1, 0] [0, 0] = none := by
  have hz : dotProd [(0 : ℚ), 0] [0, 0] = 0 := by norm_num [dotProd]
  have hz2 : dotProd [(0 : ℚ), 0] [0, 0] = 0 ∨ True := Or.inl hz
  refine ⟨?_, ?_, ?_, ?_⟩
  · norm_num [weightedCentroid, List.replicate_succ]
  · rw [normalizedCentroidJS, if_pos hz]
  · rw [cosineSimilarityJS, if_pos (Or.inr hz)]
  · rw [sectionScoreJS, cosineSimilarityJS, if_pos (Or.inr hz)]
    rfl

/-- JavaScript `Number.prototype.toFixed(1)` for the non-negative values it
receives in `registerRoutes` (`Math.abs(gap).toFixed(1)`): the nearest
multiple of 0.1, ties resolved upward, printed as `<int>.<digit>`. -/
def jsToFixed1 (q : ℚ) : List Char :=
  (toString ((⌊q * 10 + 1 / 2⌋).toNat / 10)).toList ++
    '.' :: (toString ((⌊q * 10 + 1 / 2⌋).toNat % 10)).toList

/-- The "more aligned" template of the gap analysis in `src/server/routes.ts`
(line 256). -/
def gapMoreText (g : List Char) : List Char :=
  "Your copy is ".toList ++ g ++
    ("% more aligned with target keywords than competitor content. " ++
     "This indicates strong keyword optimization and semantic relevance.").toList

/-- The "less aligned" template of the gap analysis in `src/server/routes.ts`
(line 257). -/
def gapLessText (g : List Char) : List Char :=
  "Your copy is ".toList ++ g ++
    ("% less aligned with target keywords than competitor content. " ++
     "Consider improving keyword density and semantic relevance.").toList

/-- `gapAnalysis` from `src/server/routes.ts` (lines 254-257): the template
is chosen by `gap > 0`, and the printed value is `Math.abs(gap).toFixed(1)`. -/
def gapAnalysis (mainScore competitorScore : ℚ) : List Char :=
  if 0 < mainScore - competitorScore then
    gapMoreText (jsToFixed1 |mainScore - competitorScore|)
  else gapLessText (jsToFixed1 |mainScore - competitorScore|)

/-- C4: the gap-analysis text is chosen by the sign of
`mainScore - competitorScore`: strictly positive gaps produce the
"more aligned" phrasing, non-positive gaps (including a gap of exactly 0,
which prints as `0.0`) produce the "less aligned" phrasing. -/
theorem gapAnalysis_boundary (m c : ℚ) :
    (0 < m - c → gapAnalysis m c = gapMoreText (jsToFixed1 (m - c))) ∧
    (m - c ≤ 0 → gapAnalysis m c = gapLessText (jsToFixed1 (c - m))) ∧
    (m = c → gapAnalysis m c = gapLessText ('0' :: '.' :: ['0'])) := by
  refine ⟨?_, ?_, ?_⟩
  · intro h
    rw [gapAnalysis, if_pos h, abs_of_pos h]
  · intro h
    rw [gapAnalysis, if_neg (not_lt.mpr h), abs_of_nonpos h, neg_sub]
  · intro h
    subst h
    have hz : jsToFixed1 |m - m| = '0' :: '.' :: ['0'] := by
      rw [sub_self, abs_zero, jsToFixed1]
      norm_num
      decide
    rw [gapAnalysis, if_neg (by simp), hz]

/-- C4 witness: equal scores print the `0.0` less-aligned sentence; a
strictly positive gap prints the more-aligned sentence. -/
theorem gapAnalysis_boundary_witness :
    gapAnalysis 50 50 = gapLessText ('0' :: '.' :: ['0']) ∧
    gapAnalysis 60 50 = gapMoreText (jsToFixed1 (60 - 50)) :=
  ⟨(gapAnalysis_boundary 50 50).2.2 rfl,
    (gapAnalysis_boundary 60 50).1 (by norm_num)⟩

/-- ASCII digit test (JavaScript `\d`). -/
def jsIsDigit (c : Char) : Bool := '0' ≤ c ∧ c ≤ '9'

/-- Numeric value of a digit character. -/
def digitVal (c : Char) : ℕ := c.toNat - '0'.toNat

/-- Value of a digit string read in base 10. -/
def natOfDigits (l : List Char) : ℕ := l.foldl (fun n c => 10 * n + digitVal c) 0

/-- Full-match test for the weight pattern `\d*\.?\d+` of the
`parseKeywords` regex in `src/client/src/lib/analysis.ts` (line 14):
either all digits (at least one), or digits, a dot, and at least one digit. -/
def numLang (s : List Char) : Bool :=
  match s.dropWhile jsIsDigit with
  | [] => !(s.takeWhile jsIsDigit).isEmpty
  | '.' :: post => !post.isEmpty && post.all jsIsDigit
  | _ => false

/-- JavaScript `parseFloat` restricted to strings accepted by `numLang`. -/
def parseFloatNum (s : List Char) : ℚ :=
  match s.dropWhile jsIsDigit with
  | '.' :: post =>
    (natOfDigits (s.takeWhile jsIsDigit) : ℚ) + (natOfDigits post : ℚ) / (10 : ℚ) ^ post.length
  | _ => (natOfDigits (s.takeWhile jsIsDigit) : ℚ)

/-- Matcher for the anchored lazy regex `^(.+?):(\d*\.?\d+)$`: scanning left
to right, the first colon preceded by a non-empty dot-matchable prefix and
followed by a full weight-pattern suffix wins (lazy `.+?` tries the shortest
prefix first).  `acc` holds the reversed prefix consumed so far. -/
def weightedMatchGo : List Char → List Char → Option (List Char × List Char)
  | _, [] => none
  | acc, c :: t =>
    if c = ':' ∧ acc ≠ [] ∧ numLang t then some (acc.reverse, t)
    else if jsDot c then weightedMatchGo (c :: acc) t
    else none

/-- The regex test `trimmed.match(/^(.+?):(\d*\.?\d+)$/)` of `parseKeywords`. -/
def weightedMatch (l : List Char) : Option (List Char × List Char) :=
  weightedMatchGo [] l

/-- `Keyword` from the shared schema: non-empty text plus a weight. -/
structure Keyword where
  text : List Char
  weight : ℚ
deriving DecidableEq, Inhabited

/-- The per-line body of the `parseKeywords` loop in
`src/client/src/lib/analysis.ts` (lines 9-30): skip blank lines; on a
`keyword:weight` match keep the weight only when it lies in `[0.1, 10]`,
otherwise silently fall back to weight 1; unweighted lines get weight 1. -/
def parseKeywordLine (line : List Char) : Option Keyword :=
  if jsTrim line = [] then none
  else
    match weightedMatch (jsTrim line) with
    | some (p, s) =>
      if jsTrim p ≠ [] ∧ 1 / 10 ≤ parseFloatNum s ∧ parseFloatNum s ≤ 10 then
        some ⟨jsTrim p, parseFloatNum s⟩
      else if jsTrim p ≠ [] then some ⟨jsTrim p, 1⟩
      else none
    | none => some ⟨jsTrim line, 1⟩

/-- JavaScript `input.split(/[,\n]/)`: split at every comma or newline. -/
def splitAnyGo (acc : List Char) : List Char → List (List Char)
  | [] => [acc.reverse]
  | c :: t =>
    if c = ',' ∨ c = '\n' then acc.reverse :: splitAnyGo [] t
    else splitAnyGo (c :: acc) t

/-- `parseKeywords` from `src/client/src/lib/analysis.ts` (lines 3-33). -/
def parseKeywords (input : List Char) : List Keyword :=
  if jsTrim input = [] then []
  else ((splitAnyGo [] input).filterMap parseKeywordLine).take 50

lemma parseKeywordLine_some {line : List Char} {k : Keyword}
    (h : parseKeywordLine line = some k) :
    k.text ≠ [] ∧ 1 / 10 ≤ k.weight ∧ k.weight ≤ 10 := by
  by_cases h0 : jsTrim line = []
  · rw [parseKeywordLine, if_pos h0] at h
    exact absurd h (by simp)
  · rw [parseKeywordLine, if_neg h0] at h
    rcases hw : weightedMatch (jsTrim line) with _ | ⟨p, s⟩
    · rw [hw] at h
      obtain rfl : (⟨jsTrim line, 1⟩ : Keyword) = k := Option.some_injective _ h
      exact ⟨h0, by norm_num, by norm_num⟩
    · rw [hw] at h
      dsimp only at h
      split_ifs at h with h1 h2
      · obtain rfl : (⟨jsTrim p, parseFloatNum s⟩ : Keyword) = k := Option.some_injective _ h
        exact ⟨h1.1, h1.2.1, h1.2.2⟩
      · obtain rfl : (⟨jsTrim p, 1⟩ : Keyword) = k := Option.some_injective _ h
        exact ⟨h2, by norm_num, by norm_num⟩

/-- C10: `parseKeywords` returns at most 50 keywords, every returned keyword
has non-empty (trimmed) text and a weight in `[0.1, 10]`, and a
`keyword:weight` line whose parsed weight falls outside `[0.1, 10]` is kept
with the default weight 1 rather than rejected. -/
theorem parseKeywords_invariants :
    (∀ input : List Char, (parseKeywords input).length ≤ 50) ∧
    (∀ (input : List Char) (k : Keyword), k ∈ parseKeywords input →
      k.text ≠ [] ∧ 1 / 10 ≤ k.weight ∧ k.weight ≤ 10) ∧
    (∀ (line p s : List Char), weightedMatch (jsTrim line) = some (p, s) →
      jsTrim p ≠ [] → ¬(1 / 10 ≤ parseFloatNum s ∧ parseFloatNum s ≤ 10) →
      parseKeywordLine line = some ⟨jsTrim p, 1⟩) := by
  refine ⟨?_, ?_, ?_⟩
  · intro input
    rw [parseKeywords]
    split
    · simp
    · rw [List.length_take]
      exact min_le_left _ _
  · intro input k hk
    rw [parseKeywords] at hk
    split at hk
    · exact absurd hk (by simp)
    · obtain ⟨line, _, hline⟩ := List.mem_filterMap.mp (List.mem_of_mem_take hk)
      exact parseKeywordLine_some hline
  · intro line p s hw hne hnw
    have h0 : jsTrim line ≠ [] := by
      intro h0
      rw [h0] at hw
      exact absurd hw (by simp [weightedMatch, weightedMatchGo])
    rw [parseKeywordLine, if_neg h0, hw]
    dsimp only
    rw [if_neg (by tauto), if_pos hne]

/-- C10 witness: the invariants applied at concrete inputs, including the
out-of-range weight `99` being replaced by the default weight 1. -/
theorem parseKeywords_invariants_witness :
    (parseKeywords ("seo:99, ai".toList)).length ≤ 50 ∧
    ((⟨"seo".toList, 1⟩ : Keyword).text ≠ [] ∧
      1 / 10 ≤ (⟨"seo".toList, 1⟩ : Keyword).weight ∧
      (⟨"seo".toList, 1⟩ : Keyword).weight ≤ 10) ∧
    parseKeywordLine ("seo:99".toList) = some ⟨"seo".toList, 1⟩ := by
  have h99 : parseFloatNum ("99".toList) = (99 : ℚ) := by
    have hd : List.dropWhile jsIsDigit ("99".toList) = [] := by decide
    have ht : natOfDigits (List.takeWhile jsIsDigit ("99".toList)) = 99 := by decide
    rw [parseFloatNum, hd, ht]
    norm_num
  have hmem : (⟨"seo".toList, 1⟩ : Keyword) ∈ parseKeywords ("seo".toList) := by decide
  refine ⟨parseKeywords_invariants.1 _, parseKeywords_invariants.2.1 _ _ hmem, ?_⟩
  have hw : weightedMatch (jsTrim ("seo:99".toList)) = some ("seo".toList, "99".toList) := by
    decide
  have := parseKeywords_invariants.2.2 ("seo:99".toList) ("seo".toList) ("99".toList) hw
    (by decide) (by rw [h99]; norm_num)
  simpa using this

/-- Section kinds produced by the segmenter in `src/server/routes.ts`. -/
inductive SectionType
  | heading
  | paragraph
  | chunk
deriving DecidableEq, Inhabited

/-- `TextSection` from `src/server/routes.ts` (lines 409-416). -/
structure TextSection where
  title : List Char
  content : List Char
  startIndex : ℕ
  endIndex : ℕ
  level : ℕ
  type : SectionType
deriving DecidableEq, Inhabited

/-- JavaScript `String.prototype.split(/\s+/)`: pieces between maximal
whitespace runs; a leading or trailing run contributes an empty piece. -/
def splitWsF : ℕ → List Char → List Char → List (List Char)
  | 0, acc, rest => [acc.reverse ++ rest]
  | _ + 1, acc, [] => [acc.reverse]
  | fuel + 1, acc, c :: t =>
    if jsIsSpace c then acc.reverse :: splitWsF fuel [] (t.dropWhile jsIsSpace)
    else splitWsF fuel (c :: acc) t

/-- `text.split(/\s+/)` (the fuel is always sufficient: every step consumes
at least one character). -/
def splitWs (text : List Char) : List (List Char) :=
  splitWsF (text.length + 1) [] text

/-- Match test for the markdown heading regex `^(#{1,6})\s+(.+)$` of
`detectMarkdownSections` (line 485 of `src/server/routes.ts`), returning the
heading level and the trimmed title.  The backtracking of greedy `\s+`
against `(.+)$` is resolved explicitly: if something follows the whitespace
run it must be entirely dot-matchable and becomes the title; otherwise the
last whitespace character is given back to `(.+)` when possible. -/
def mdHeading (line : List Char) : Option (ℕ × List Char) :=
  let hashes := line.takeWhile (· == '#')
  let rest := line.dropWhile (· == '#')
  let w := rest.takeWhile jsIsSpace
  let r := rest.dropWhile jsIsSpace
  if 1 ≤ hashes.length ∧ hashes.length ≤ 6 ∧ w ≠ [] then
    if r ≠ [] then
      if r.all jsDot then some (hashes.length, jsTrim r) else none
    else if 2 ≤ w.length ∧ jsDot (w.getLastD ' ') then
      some (hashes.length, jsTrim [w.getLastD ' '])
    else none
  else none

/-- `currentContent.join('\n')`. -/
def joinLines (ls : List (List Char)) : List Char := List.intercalate ['\n'] ls

/-- Flushing the current markdown section (`src/server/routes.ts` lines
495-501 and 523-529): the accumulated content is joined, trimmed, and the
section is kept only when the trimmed content is non-empty. -/
def mdFlush (cur : Option TextSection) (content : List (List Char))
    (acc : List TextSection) : List TextSection :=
  match cur with
  | none => acc
  | some s =>
    if jsTrim (joinLines content) ≠ [] then
      acc ++ [{ s with content := jsTrim (joinLines content) }]
    else acc

/-- The line loop of `detectMarkdownSections` (lines 491-529). -/
def mdGo : List TextSection → Option TextSection → List (List Char) → ℕ →
    List (List Char) → List TextSection
  | acc, cur, content, _, [] => mdFlush cur content acc
  | acc, cur, content, idx, line :: rest =>
    match mdHeading line with
    | some (lvl, title) =>
      mdGo (mdFlush cur content acc)
        (some ⟨title, [], idx, idx, lvl, SectionType.heading⟩) [] (idx + 1) rest
    | none => mdGo acc cur (content ++ [line]) (idx + 1) rest

/-- `detectMarkdownSections` from `src/server/routes.ts` (lines 482-532). -/
def detectMarkdownSections (text : List Char) : List TextSection :=
  mdGo [] none [] 0 (text.splitOn '\n')

/-- Test whether the list starts with the closing tag `</hD>` (with `D` the
digit captured by the opening tag; `h` is case-insensitive). -/
def isCloseTag (d : Char) (l : List Char) : Bool :=
  match l with
  | '<' :: '/' :: c :: d2 :: '>' :: _ => (c = 'h' ∨ c = 'H') ∧ d2 = d
  | _ => false

/-- Lazy search for the closing tag: the body `(.*?)` grows one character at
a time, each body character having to be dot-matchable.  Returns the body
length of the earliest viable close. -/
def findClose (d : Char) : List Char → Option ℕ
  | [] => none
  | c :: t =>
    if isCloseTag d (c :: t) then some 0
    else if jsDot c then (findClose d t).map (· + 1)
    else none

/-- Attempt the heading regex at the current position: `<h`, a digit `1-6`,
greedy `[^>]*`, `>`, the lazy body, then the matching close tag.  Returns
`(level, inner, match length)`; the level is `parseInt(match[1])`. -/
def tryHtmlAt (l : List Char) : Option (ℕ × List Char × ℕ) :=
  match l with
  | '<' :: c :: d :: rest =>
    if (c = 'h' ∨ c = 'H') ∧ '1' ≤ d ∧ d ≤ '6' then
      match rest.dropWhile (· != '>') with
      | '>' :: body =>
        match findClose d body with
        | some n =>
          some (digitVal d, body.take n,
            3 + (rest.takeWhile (· != '>')).length + 1 + n + 5)
        | none => none
      | _ => none
    else none
  | _ => none

/-- Global scan for `/<h([1-6])[^>]*>(.*?)<\/h\1>/gi` (line 449 of
`src/server/routes.ts`): at each position try a match; on success record
`(index, level, inner, length)` and resume after the match. -/
def scanHtml : ℕ → ℕ → List Char → List (ℕ × ℕ × List Char × ℕ)
  | 0, _, _ => []
  | _ + 1, _, [] => []
  | fuel + 1, pos, c :: t =>
    match tryHtmlAt (c :: t) with
    | some (lvl, inner, len) =>
      (pos, lvl, inner, len) :: scanHtml fuel (pos + len) ((c :: t).drop len)
    | none => scanHtml fuel (pos + 1) t

/-- `Array.from(text.matchAll(headingRegex))`. -/
def findHtmlMatches (text : List Char) : List (ℕ × ℕ × List Char × ℕ) :=
  scanHtml (text.length + 1) 0 text

/-- `title.replace(/<[^>]*>/g, '')` (line 458): drop every `<...>` span that
has a closing `>`. -/
def stripTags : ℕ → List Char → List Char
  | 0, l => l
  | _ + 1, [] => []
  | fuel + 1, c :: t =>
    if c = '<' then
      match t.dropWhile (· != '>') with
      | '>' :: r2 => stripTags fuel r2
      | _ => c :: stripTags fuel t
    else c :: stripTags fuel t

/-- Strip inner markup from a heading title. -/
def stripInnerTags (l : List Char) : List Char := stripTags (l.length + 1) l

/-- The `matches.forEach` section builder of `detectHtmlSections`
(lines 454-479): content runs from the current position to the start of the
next heading (or end of text), is trimmed, and empty contents are skipped;
an empty stripped title falls back to `Section N`. -/
def htmlBuild (text : List Char) : List (ℕ × ℕ × List Char × ℕ) → ℕ → ℕ → List TextSection
  | [], _, _ => []
  | (_, lvl, inner, _) :: rest, index, currentIndex =>
    let contentEnd := match rest with
      | (pos2, _, _, _) :: _ => pos2
      | [] => text.length
    let content := jsTrim ((text.drop currentIndex).take (contentEnd - currentIndex))
    let title := jsTrim (stripInnerTags inner)
    let secs := htmlBuild text rest (index + 1) contentEnd
    if content ≠ [] then
      ⟨if title ≠ [] then title else "Section ".toList ++ (toString (index + 1)).toList,
        content, currentIndex, contentEnd, lvl, SectionType.heading⟩ :: secs
    else secs

/-- `detectHtmlSections` from `src/server/routes.ts` (lines 447-480). -/
def detectHtmlSections (text : List Char) : List TextSection :=
  if findHtmlMatches text = [] then []
  else htmlBuild text (findHtmlMatches text) 0 0

/-- JavaScript `text.split(/\n\s*\n/)`: a match starts at a newline whose
following maximal whitespace run contains another newline, and extends
(greedily) through the last newline of that run. -/
def paraSplitF : ℕ → List Char → List Char → List (List Char)
  | 0, acc, rest => [acc.reverse ++ rest]
  | _ + 1, acc, [] => [acc.reverse]
  | fuel + 1, acc, c :: t =>
    if c = '\n' ∧ '\n' ∈ t.takeWhile jsIsSpace then
      acc.reverse ::
        paraSplitF fuel []
          (((t.takeWhile jsIsSpace).reverse.takeWhile (· != '\n')).reverse ++
            t.dropWhile jsIsSpace)
    else paraSplitF fuel (c :: acc) t

/-- `text.split(/\n\s*\n/)`. -/
def paraSplit (text : List Char) : List (List Char) :=
  paraSplitF (text.length + 1) [] text

/-- The non-blank paragraphs of `detectParagraphSections` (line 535):
`text.split(/\n\s*\n/).filter(p => p.trim().length > 0)`. -/
def paragraphsOf (text : List Char) : List (List Char) :=
  (paraSplit text).filter (fun p => decide (0 < (jsTrim p).length))

/-- `detectParagraphSections` from `src/server/routes.ts` (lines 534-547). -/
def detectParagraphSections (text : List Char) : List TextSection :=
  if (paragraphsOf text).length < 2 then []
  else (paragraphsOf text).enum.map (fun ip =>
    ⟨"Paragraph ".toList ++ (toString (ip.1 + 1)).toList, jsTrim ip.2,
      ip.1 * 100, (ip.1 + 1) * 100, 1, SectionType.paragraph⟩)

/-- The strategy-3 fallback section of `detectSections` (lines 437-444). -/
def fullContentSection (text : List Char) : TextSection :=
  ⟨"Full Content".toList, text, 0, (splitWs text).length - 1, 1, SectionType.chunk⟩

/-- `detectSections` from `src/server/routes.ts` (lines 418-445): HTML
headings, then markdown headings, then paragraphs, each accepted only when
it yields more than one section; otherwise a single fallback section. -/
def detectSections (text : List Char) : List TextSection :=
  if 1 < (detectHtmlSections text).length then detectHtmlSections text
  else if 1 < (detectMarkdownSections text).length then detectMarkdownSections text
  else if 1 < (detectParagraphSections text).length then detectParagraphSections text
  else [fullContentSection text]

/-- A chunk produced by `chunkText` (line 549): joined slice text plus the
inclusive word-index bounds stored by the source (`endIndex: endIndex - 1`). -/
structure ChunkPiece where
  text : List Char
  startIndex : ℕ
  endIndex : ℕ
deriving DecidableEq, Inhabited

/-- The word-window `while` loop of `chunkText` (lines 565-579), with an
explicit fuel so that the recursion is structural: each iteration takes the
window `[start, min (start + chunkSize) len)`, stops if it reached the end,
and otherwise continues at `end - overlap`.  `none` means the fuel ran out,
which the termination theorem below rules out for `overlap < chunkSize`. -/
def chunkTextLoop (words : List (List Char)) (chunkSize overlap : ℕ) :
    ℕ → ℕ → Option (List ChunkPiece)
  | 0, _ => none
  | fuel + 1, start =>
    if start < words.length then
      if words.length ≤ min (start + chunkSize) words.length then
        some [⟨List.intercalate [' ']
          ((words.drop start).take (min (start + chunkSize) words.length - start)),
          start, min (start + chunkSize) words.length - 1⟩]
      else
        match chunkTextLoop words chunkSize overlap fuel
            (min (start + chunkSize) words.length - overlap) with
        | some rest =>
          some (⟨List.intercalate [' ']
            ((words.drop start).take (min (start + chunkSize) words.length - start)),
            start, min (start + chunkSize) words.length - 1⟩ :: rest)
        | none => none
    else some []

/-- The full fixed-window splitter on a word array. -/
def wordChunks (words : List (List Char)) (chunkSize overlap : ℕ) : List ChunkPiece :=
  (chunkTextLoop words chunkSize overlap (words.length + 1) 0).getD []

/-- `chunkText` from `src/server/routes.ts` (lines 549-582): intelligent
sectioning first; word-based windows (500/100) when the segmenter only found
a single or fallback-typed section. -/
def chunkText (text : List Char) : List ChunkPiece :=
  if 1 < (detectSections text).length ∧
      (detectSections text).headI.type ≠ SectionType.chunk then
    (detectSections text).map (fun s => ⟨s.content, s.startIndex, s.endIndex⟩)
  else wordChunks (splitWs text) 500 100

/-- C6: the segmenter's tiers apply in strict order — for a text in which
the HTML tier and the markdown tier find no headings but the paragraph tier
finds at least two non-blank blank-line-delimited paragraphs, `detectSections`
returns exactly the paragraph sections: one `paragraph`-type section per
paragraph, titled `Paragraph N` with the trimmed paragraph as content, and
not the single `Full Content` fallback section. -/
theorem detectSections_paragraph_tier (text : List Char)
    (hhtml : detectHtmlSections text = [])
    (hmd : detectMarkdownSections text = [])
    (hp : 2 ≤ (paragraphsOf text).length) :
    detectSections text = detectParagraphSections text ∧
    (detectSections text).length = (paragraphsOf text).length ∧
    (∀ (i : ℕ) (p : List Char), (paragraphsOf text)[i]? = some p →
      (detectSections text)[i]? =
        some (⟨"Paragraph ".toList ++ (toString (i + 1)).toList, jsTrim p,
          i * 100, (i + 1) * 100, 1, SectionType.paragraph⟩ : TextSection)) := by
  have hpar : detectParagraphSections text =
      (paragraphsOf text).enum.map (fun ip =>
        ⟨"Paragraph ".toList ++ (toString (ip.1 + 1)).toList, jsTrim ip.2,
          ip.1 * 100, (ip.1 + 1) * 100, 1, SectionType.paragraph⟩) := by
    rw [detectParagraphSections, if_neg (by omega)]
  have hlen : (detectParagraphSections text).length = (paragraphsOf text).length := by
    rw [hpar, List.length_map, List.enum_length]
  have h1 : detectSections text = detectParagraphSections text := by
    rw [detectSections, hhtml, hmd]
    simp only [List.length_nil]
    rw [if_neg (by norm_num), if_neg (by norm_num), if_pos (by omega)]
  refine ⟨h1, by rw [h1, hlen], ?_⟩
  intro i p hip
  rw [h1, hpar, List.getElem?_map, List.getElem?_enum, hip]
  rfl

/-- C6 witness: a two-paragraph text with no headings segments into the two
titled paragraph sections. -/
theorem detectSections_paragraph_tier_witness :
    detectSections ("Alpha beta.\n\nGamma delta.".toList) =
      detectParagraphSections ("Alpha beta.\n\nGamma delta.".toList) ∧
    (detectSections ("Alpha beta.\n\nGamma delta.".toList))[0]? =
      some (⟨"Paragraph ".toList ++ (toString 1).toList, jsTrim ("Alpha beta.".toList),
        0, 100, 1, SectionType.paragraph⟩ : TextSection) ∧
    (detectSections ("Alpha beta.\n\nGamma delta.".toList))[1]? =
      some (⟨"Paragraph ".toList ++ (toString 2).toList, jsTrim ("Gamma delta.".toList),
        100, 200, 1, SectionType.paragraph⟩ : TextSection) := by
  have h := detectSections_paragraph_tier ("Alpha beta.\n\nGamma delta.".toList)
    (by decide) (by decide) (by decide)
  exact ⟨h.1, h.2.2 0 _ (by decide), h.2.2 1 _ (by decide)⟩

lemma chunkTextLoop_total (words : List (List Char)) (cs ov : ℕ) (hov : ov < cs) :
    ∀ fuel start, words.length - start < fuel →
      ∃ r, chunkTextLoop words cs ov fuel start = some r := by
  intro fuel
  induction fuel with
  | zero => intro start h; omega
  | succ f ih =>
    intro start h
    by_cases hs : start < words.length
    · by_cases he : words.length ≤ min (start + cs) words.length
      · exact ⟨_, by simp only [chunkTextLoop, if_pos hs, if_pos he]; rfl⟩
      · obtain ⟨rest, hrest⟩ := ih (min (start + cs) words.length - ov) (by omega)
        exact ⟨_, by simp only [chunkTextLoop, if_pos hs, if_neg he, hrest]; rfl⟩
    · exact ⟨[], by simp only [chunkTextLoop, if_neg hs]⟩

lemma chunkTextLoop_spec (words : List (List Char)) (cs ov : ℕ)
    (hov : ov < cs) :
    ∀ fuel start ws, chunkTextLoop words cs ov fuel start = some ws →
      start < words.length →
      (∃ c cs', ws = c :: cs' ∧ c.startIndex = start ∧
        c.endIndex = min (start + cs) words.length - 1) ∧
      (∀ i, start ≤ i → i < words.length →
        ∃ c ∈ ws, c.startIndex ≤ i ∧ i ≤ c.endIndex) ∧
      List.Chain' (fun a b => a.endIndex + 1 = a.startIndex + cs ∧
        b.startIndex + ov = a.endIndex + 1 ∧ a.endIndex ≤ b.endIndex) ws ∧
      (∀ c ∈ ws, c.endIndex + 1 ≤ c.startIndex + cs ∧ c.startIndex ≤ c.endIndex ∧
        c.endIndex < words.length) := by
  intro fuel
  induction fuel with
  | zero =>
    intro start ws h hs
    exact absurd h (by simp [chunkTextLoop])
  | succ f ih =>
    intro start ws h hs
    simp only [chunkTextLoop, if_pos hs] at h
    by_cases he : words.length ≤ min (start + cs) words.length
    · rw [if_pos he] at h
      obtain rfl : _ = ws := Option.some_injective _ h
      have hmin : min (start + cs) words.length = words.length := by omega
      refine ⟨⟨_, [], rfl, rfl, rfl⟩, ?_, ?_, ?_⟩
      · intro i hsi hil
        exact ⟨_, List.mem_singleton_self _, by simpa using hsi, by simp; omega⟩
      · exact List.chain'_singleton _
      · intro c hc
        rw [List.mem_singleton] at hc
        subst hc
        refine ⟨?_, ?_, ?_⟩ <;> simp <;> omega
    · rw [if_neg he] at h
      have hmin : min (start + cs) words.length = start + cs := by omega
      rcases hr : chunkTextLoop words cs ov f (min (start + cs) words.length - ov)
        with _ | rest
      · rw [hr] at h
        exact absurd h (by simp)
      · rw [hr] at h
        obtain rfl : _ = ws := Option.some_injective _ h
        have hstart' : min (start + cs) words.length - ov < words.length := by omega
        obtain ⟨⟨c2, cs2, hr2, hc2s, hc2e⟩, hcov2, hchain2, hbnd2⟩ :=
          ih (min (start + cs) words.length - ov) rest hr hstart'
        refine ⟨⟨_, rest, rfl, rfl, rfl⟩, ?_, ?_, ?_⟩
        · intro i hsi hil
          by_cases hi : i ≤ min (start + cs) words.length - 1
          · exact ⟨_, List.mem_cons_self _ _, by simpa using hsi, by simpa using hi⟩
          · obtain ⟨c, hcmem, hcs', hce'⟩ := hcov2 i (by omega) hil
            exact ⟨c, List.mem_cons_of_mem _ hcmem, hcs', hce'⟩
        · rw [hr2]
          rw [hr2] at hchain2
          refine List.Chain'.cons ?_ hchain2
          have hc2eval : c2.endIndex =
              min (min (start + cs) words.length - ov + cs) words.length - 1 := hc2e
          refine ⟨by dsimp only; omega, ?_, ?_⟩
          · rw [hc2s]; dsimp only; omega
          · rw [hc2eval]; dsimp only; omega
        · intro c hc
          rcases List.mem_cons.mp hc with rfl | hc2
          · refine ⟨?_, ?_, ?_⟩ <;> simp <;> omega
          · exact hbnd2 c hc2

/-- C7: for a document of at least one word, the fixed 500/100 word windows
cover every word index with no gap, consecutive windows overlap in exactly
100 word indices, every window except possibly the last spans exactly 500
words, and every window spans at most 500 words. -/
theorem wordChunks_cover_overlap (words : List (List Char)) (h : 1 ≤ words.length) :
    (∀ i, i < words.length → ∃ c ∈ wordChunks words 500 100,
      c.startIndex ≤ i ∧ i ≤ c.endIndex) ∧
    List.Chain' (fun a b =>
      min a.endIndex b.endIndex + 1 = max a.startIndex b.startIndex + 100)
      (wordChunks words 500 100) ∧
    List.Chain' (fun a b => a.endIndex + 1 = a.startIndex + 500)
      (wordChunks words 500 100) ∧
    (∀ c ∈ wordChunks words 500 100, c.endIndex + 1 ≤ c.startIndex + 500) := by
  obtain ⟨r, hr⟩ := chunkTextLoop_total words 500 100 (by norm_num)
    (words.length + 1) 0 (by omega)
  have hw : wordChunks words 500 100 = r := by rw [wordChunks, hr]; rfl
  obtain ⟨_, hcov, hchain, hbnd⟩ :=
    chunkTextLoop_spec words 500 100 (by norm_num) (words.length + 1) 0 r hr (by omega)
  rw [hw]
  refine ⟨fun i hi => hcov i (Nat.zero_le i) hi, ?_, ?_, fun c hc => (hbnd c hc).1⟩
  · refine hchain.imp ?_
    intro a b hab
    omega
  · refine hchain.imp ?_
    intro a b hab
    exact hab.1

set_option maxRecDepth 4000 in
/-- C7 witness: a 600-word document, whose windows are
`[0, 499]` and `[400, 599]`. -/
theorem wordChunks_cover_overlap_witness :
    (∃ c ∈ wordChunks (List.replicate 600 ['w']) 500 100,
      c.startIndex ≤ 599 ∧ 599 ≤ c.endIndex) ∧
    List.Chain' (fun a b =>
      min a.endIndex b.endIndex + 1 = max a.startIndex b.startIndex + 100)
      (wordChunks (List.replicate 600 ['w']) 500 100) := by
  have h := wordChunks_cover_overlap (List.replicate 600 ['w'])
    (by rw [List.length_replicate]; norm_num)
  exact ⟨h.1 599 (by rw [List.length_replicate]; norm_num), h.2.1⟩

/-- C9: with `overlap < chunkSize` the word-window loop terminates — fuel
`words.length + 1` already suffices to reach the final window — and whenever
an iteration does not reach the end of the word array it advances the start
index by exactly `chunkSize - overlap > 0` words. -/
theorem chunkTextLoop_terminates (words : List (List Char)) (chunkSize overlap : ℕ)
    (h : overlap < chunkSize) :
    (∃ r, chunkTextLoop words chunkSize overlap (words.length + 1) 0 = some r ∧
      wordChunks words chunkSize overlap = r) ∧
    (0 < chunkSize - overlap ∧
      ∀ start : ℕ, start + chunkSize < words.length →
        min (start + chunkSize) words.length - overlap = start + (chunkSize - overlap)) := by
  obtain ⟨r, hr⟩ := chunkTextLoop_total words chunkSize overlap h
    (words.length + 1) 0 (by omega)
  exact ⟨⟨r, hr, by rw [wordChunks, hr]; rfl⟩, by omega, fun start hs => by omega⟩

/-- C9 witness: the loop on a three-word array with window 2 and overlap 1. -/
theorem chunkTextLoop_terminates_witness :
    (∃ r, chunkTextLoop ["ab".toList, "cd".toList, "ef".toList] 2 1 4 0 = some r ∧
      wordChunks ["ab".toList, "cd".toList, "ef".toList] 2 1 = r) ∧
    min (0 + 2) ([['a'], ['b'], ['c']] : List (List Char)).length - 1 = 0 + (2 - 1) := by
  refine ⟨?_, ?_⟩
  · have h := (chunkTextLoop_terminates ["ab".toList, "cd".toList, "ef".toList] 2 1
      (by norm_num)).1
    simpa using h
  · exact (chunkTextLoop_terminates [['a'], ['b'], ['c']] 2 1 (by norm_num)).2.2 0 (by simp)

/-- The average semantic score of `analyzeKeywordCoverage`
(`src/server/routes.ts` lines 84-86): mean of the per-chunk scores, 0 for an
empty chunk list. -/
def avgScoreOf (chunkScores : List (List Char × ℚ)) : ℚ :=
  if 0 < chunkScores.length then (chunkScores.map (·.2)).sum / chunkScores.length
  else 0

/-- The weak-section filter of `analyzeKeywordCoverage` (lines 92-94):
titles of chunks scoring below `max(avg * 0.8, 0.2)`. -/
def weakFilterOf (chunkScores : List (List Char × ℚ)) : List (List Char) :=
  (chunkScores.filter
    (fun c => decide (c.2 < max (avgScoreOf chunkScores * (8 / 10)) (2 / 10)))).map (·.1)

/-- The weak-section result of `analyzeKeywordCoverage` (lines 92-99): the
filtered weak sections, except that when the filter is empty and coverage is
poor overall (no direct mentions, or average similarity below 0.3) every
chunk title is pushed instead. -/
def keywordWeakSections (chunkScores : List (List Char × ℚ)) (mainMentions : ℕ) :
    List (List Char) :=
  if weakFilterOf chunkScores = [] ∧
      (mainMentions = 0 ∨ avgScoreOf chunkScores < 3 / 10) then
    chunkScores.map (·.1)
  else weakFilterOf chunkScores

lemma splitWsF_ne_nil : ∀ (fuel : ℕ) (acc l : List Char), splitWsF fuel acc l ≠ [] := by
  intro fuel
  induction fuel with
  | zero => intro acc l; simp [splitWsF]
  | succ f ih =>
    intro acc l
    cases l with
    | nil => simp [splitWsF]
    | cons c t =>
      simp only [splitWsF]
      split
      · simp
      · exact ih _ _

lemma splitWs_ne_nil (text : List Char) : splitWs text ≠ [] :=
  splitWsF_ne_nil _ _ _

lemma wordChunks_ne_nil (words : List (List Char)) (hw : words ≠ []) :
    wordChunks words 500 100 ≠ [] := by
  have hlen : 0 < words.length := List.length_pos.mpr hw
  rw [wordChunks]
  simp only [chunkTextLoop, if_pos hlen]
  by_cases he : words.length ≤ min (0 + 500) words.length
  · rw [if_pos he]
    simp
  · rw [if_neg he]
    obtain ⟨rest, hrest⟩ := chunkTextLoop_total words 500 100 (by norm_num)
      words.length (min (0 + 500) words.length - 100) (by omega)
    rw [hrest]
    simp

lemma chunkText_ne_nil (text : List Char) : chunkText text ≠ [] := by
  rw [chunkText]
  split
  · next hcond =>
    intro hmap
    rw [List.map_eq_nil] at hmap
    rw [hmap] at hcond
    simp at hcond
  · exact wordChunks_ne_nil _ (splitWs_ne_nil text)

/-- C5: when no chunk scores below the weak threshold
`max(avg * 0.8, 0.2)` but the keyword's coverage is poor overall (zero
direct mentions or average similarity below 0.3), the weak-section list is
reclassified to every chunk title, hence it is non-empty whenever there is
at least one chunk — and the chunk lists this function receives are never
empty, because `chunkText` always produces at least one chunk. -/
theorem weakSections_fallback :
    (∀ (chunkScores : List (List Char × ℚ)) (mainMentions : ℕ),
      weakFilterOf chunkScores = [] →
      (mainMentions = 0 ∨ avgScoreOf chunkScores < 3 / 10) →
      keywordWeakSections chunkScores mainMentions = chunkScores.map (·.1) ∧
      (chunkScores ≠ [] → keywordWeakSections chunkScores mainMentions ≠ [])) ∧
    (∀ text : List Char, chunkText text ≠ []) := by
  refine ⟨?_, chunkText_ne_nil⟩
  intro cs m hw hpoor
  have h1 : keywordWeakSections cs m = cs.map (·.1) := by
    rw [keywordWeakSections, if_pos ⟨hw, hpoor⟩]
  refine ⟨h1, fun hne => ?_⟩
  rw [h1]
  simpa using hne

/-- C5 witness: two chunks scoring 0.5 each (no chunk below the weak
threshold 0.4) and a keyword with zero mentions: all titles become weak. -/
theorem weakSections_fallback_witness :
    keywordWeakSections [("Chunk 1".toList, 1 / 2), ("Chunk 2".toList, 1 / 2)] 0 =
      ["Chunk 1".toList, "Chunk 2".toList] ∧
    keywordWeakSections [("Chunk 1".toList, 1 / 2), ("Chunk 2".toList, 1 / 2)] 0 ≠ [] := by
  have havg : avgScoreOf [("Chunk 1".toList, 1 / 2), ("Chunk 2".toList, 1 / 2)] = 1 / 2 := by
    rw [avgScoreOf, if_pos (by norm_num)]
    norm_num
  have hthr : max ((1 : ℚ) / 2 * (8 / 10)) (2 / 10) = 2 / 5 := by
    rw [max_eq_left (by norm_num)]
    norm_num
  have hw : weakFilterOf [("Chunk 1".toList, 1 / 2), ("Chunk 2".toList, 1 / 2)] = [] := by
    rw [weakFilterOf, havg, hthr]
    norm_num
  have h := weakSections_fallback.1 [("Chunk 1".toList, 1 / 2), ("Chunk 2".toList, 1 / 2)] 0
    hw (Or.inl rfl)
  exact ⟨by simpa using h.1, h.2 (by simp)⟩

/-- `ChunkResult` from the shared schema (title, score, word bounds, text). -/
structure ChunkResult where
  title : List Char
  score : ℚ
  startIndex : ℕ
  endIndex : ℕ
  text : List Char
deriving DecidableEq, Inhabited

/-- `KeywordCoverage` from the shared schema.  `semanticCoverage` is the
integer percentage `Math.round(avgScore * 100)`. -/
structure KeywordCoverage where
  keyword : List Char
  weight : ℚ
  directMentions : ℕ
  semanticCoverage : ℤ
  strongSections : List (List Char)
  weakSections : List (List Char)
  relatedTermsFound : List (List Char)
  competitorAdvantage : Bool
  competitorMentions : ℕ
deriving DecidableEq, Inhabited

/-- `SectionImprovement` from the shared schema.  The source field `section`
is named `sectionTitle` here because `section` is a Lean keyword. -/
structure SectionImprovement where
  sectionTitle : List Char
  currentScore : ℚ
  missingKeywords : List (List Char)
  suggestedPhrases : List (List Char)
  competitorStrengths : List (List Char)
deriving DecidableEq, Inhabited

/-- The missing-keyword filter of `analyzeSectionImprovements`
(`src/server/routes.ts` lines 128-135): keywords listing this section as
weak, or with zero direct mentions, or with semantic coverage below 50. -/
def missingKeywordsFor (keywordAnalysis : List KeywordCoverage) (title : List Char) :
    List (List Char) :=
  (keywordAnalysis.filter (fun ka =>
    decide (title ∈ ka.weakSections ∨ ka.directMentions = 0 ∨
      ka.semanticCoverage < 50))).map (·.keyword)

/-- The six phrase templates of `analyzeSectionImprovements` (lines 143-150). -/
def suggestionTemplates (kw : List Char) : List (List Char) :=
  ["effective ".toList ++ kw ++ " strategies".toList,
   "optimize for ".toList ++ kw,
   kw ++ " best practices".toList,
   "improving ".toList ++ kw ++ " performance".toList,
   kw ++ " solutions".toList,
   "advanced ".toList ++ kw ++ " techniques".toList]

/-- `analyzeSectionImprovements` from `src/server/routes.ts` (lines 120-171).
`rand` models the `Math.floor(Math.random() * templates.length)` draw, one
per (section index, keyword index); `keywords` is accepted and ignored
exactly as in the source. -/
def analyzeSectionImprovements (mainChunks competitorChunks : List ChunkResult)
    (keywords : List Keyword) (keywordAnalysis : List KeywordCoverage)
    (rand : ℕ → ℕ → Fin 6) : List SectionImprovement :=
  mainChunks.enum.map (fun ic =>
    ⟨ic.2.title, (jsRoundQ (ic.2.score * 10) : ℚ) / 10,
      if 0 < (missingKeywordsFor keywordAnalysis ic.2.title).length then
        missingKeywordsFor keywordAnalysis ic.2.title
      else (keywordAnalysis.take 3).map (·.keyword),
      (if 0 < (missingKeywordsFor keywordAnalysis ic.2.title).length then
        missingKeywordsFor keywordAnalysis ic.2.title
      else (keywordAnalysis.take 3).map (·.keyword)).enum.map
        (fun jk => (suggestionTemplates jk.2).getD (rand ic.1 jk.1) []),
      match competitorChunks[ic.1]? with
      | some cc =>
        if ic.2.score < cc.score then
          ["Higher keyword density".toList, "Better semantic alignment".toList]
        else []
      | none => []⟩)

/-- C3 counterexample: with four keywords that all have zero direct mentions,
the single section's `missingKeywords` list has four entries — the filtered
path of `analyzeSectionImprovements` applies no cap, only the fallback path
takes the first three keywords. -/
theorem missingKeywords_cap_violated :
    (analyzeSectionImprovements [⟨"Chunk 1".toList, 50, 0, 9, "t".toList⟩] [] []
      [⟨"kw1".toList, 1, 0, 100, [], [], [], false, 0⟩,
       ⟨"kw2".toList, 1, 0, 100, [], [], [], false, 0⟩,
       ⟨"kw3".toList, 1, 0, 100, [], [], [], false, 0⟩,
       ⟨"kw4".toList, 1, 0, 100, [], [], [], false, 0⟩]
      (fun _ _ => 0)).map (fun s => s.missingKeywords.length) = [4] ∧
    ¬(4 ≤ 3) := by
  refine ⟨by decide, by decide⟩

/-- C3 (amended): a section's `missingKeywords` list is capped at 3 only on
the fallback path (no keyword matches the weakness filter for that section);
on the filtered path it contains every matching keyword, so in general its
length is only bounded by the total number of keywords. -/
theorem missingKeywords_bound
    (mainChunks competitorChunks : List ChunkResult) (kws : List Keyword)
    (ka : List KeywordCoverage) (rand : ℕ → ℕ → Fin 6) :
    ∀ s ∈ analyzeSectionImprovements mainChunks competitorChunks kws ka rand,
      s.missingKeywords.length ≤ max 3 ka.length ∧
      (missingKeywordsFor ka s.sectionTitle = [] → s.missingKeywords.length ≤ 3) := by
  intro s hs
  obtain ⟨ic, _, rfl⟩ := List.mem_map.mp hs
  constructor
  · dsimp only
    by_cases hm : 0 < (missingKeywordsFor ka ic.2.title).length
    · rw [if_pos hm]
      refine le_max_of_le_right ?_
      rw [missingKeywordsFor, List.length_map]
      exact List.length_filter_le _ _
    · rw [if_neg hm]
      refine le_max_of_le_left ?_
      rw [List.length_map, List.length_take]
      exact min_le_left _ _
  · intro hempty
    dsimp only at hempty ⊢
    rw [hempty]
    simp only [List.length_nil, lt_irrefl, if_false]
    rw [List.length_map, List.length_take]
    exact min_le_left _ _

/-- C3 witness: the amended bound applied to a concrete section whose
weakness filter is empty (no keywords at all), hence the fallback ≤ 3 cap. -/
theorem missingKeywords_bound_witness :
    ∃ s ∈ analyzeSectionImprovements [⟨"Chunk 1".toList, 50, 0, 9, "t".toList⟩]
      ([] : List ChunkResult) ([] : List Keyword) ([] : List KeywordCoverage)
      (fun _ _ => (0 : Fin 6)),
      s.missingKeywords.length ≤ max 3 ([] : List KeywordCoverage).length ∧
      (missingKeywordsFor [] s.sectionTitle = [] → s.missingKeywords.length ≤ 3) := by
  have hmem : ((0 : ℕ), (⟨"Chunk 1".toList, 50, 0, 9, "t".toList⟩ : ChunkResult)) ∈
      ([⟨"Chunk 1".toList, 50, 0, 9, "t".toList⟩] : List ChunkResult).enum := by
    simp [List.enum]
  have hsmem : (fun ic : ℕ × ChunkResult =>
      (⟨ic.2.title, (jsRoundQ (ic.2.score * 10) : ℚ) / 10,
        if 0 < (missingKeywordsFor [] ic.2.title).length then
          missingKeywordsFor [] ic.2.title
        else (([] : List KeywordCoverage).take 3).map (·.keyword),
        (if 0 < (missingKeywordsFor [] ic.2.title).length then
          missingKeywordsFor [] ic.2.title
        else (([] : List KeywordCoverage).take 3).map (·.keyword)).enum.map
          (fun jk => (suggestionTemplates jk.2).getD ((fun _ _ => (0 : Fin 6)) ic.1 jk.1) []),
        match ([] : List ChunkResult)[ic.1]? with
        | some cc =>
          if ic.2.score < cc.score then
            ["Higher keyword density".toList, "Better semantic alignment".toList]
          else []
        | none => []⟩ : SectionImprovement))
        ((0 : ℕ), (⟨"Chunk 1".toList, 50, 0, 9, "t".toList⟩ : ChunkResult)) ∈
      analyzeSectionImprovements [⟨"Chunk 1".toList, 50, 0, 9, "t".toList⟩]
        ([] : List ChunkResult) ([] : List Keyword) ([] : List KeywordCoverage)
        (fun _ _ => (0 : Fin 6)) :=
    List.mem_map.mpr ⟨_, hmem, rfl⟩
  exact ⟨_, hsmem, missingKeywords_bound _ _ _ _ _ _ hsmem⟩
